import Mathlib

/-!
Shallow embedding of the `fbdraw` crate (src/src/lib.rs): a pixel `Surface`
with a clamped `put_pixel` primitive, a packed 24-bit `Color`, and the
fixed-rate draw loop `begin_draw` driven by an external display collaborator.

Machine integers (`u32`, `usize`) are modelled as `Nat`; the one place the
source can underflow (`self.width - 1` on a zero width) is modelled with a
checked subtraction returning `Option`, matching the fact that the Rust call
panics there (debug: subtraction overflow; release: the wrapped clamp produces
an out-of-bounds index into the empty buffer, which also panics). Fallible
operations therefore return `Option`.
-/

namespace Fbdraw

/-- The `Color` struct of the source: a single packed `u32` value. -/
structure Color where
  val : Nat
  deriving DecidableEq

/-- Embedding of `Color::rgb` from src/src/lib.rs lines 42-46. Note the
source parameter order is `(r, b, g)`: the second positional parameter is
named `b` and is packed unshifted (bits 0-7), the third is named `g` and is
shifted into bits 8-15. The body is
`(min(r, 255) << 16) | (min(g, 255) << 8) | min(b, 255)`. -/
def Color.rgb (r b g : Nat) : Color :=
  ⟨(min r 255 <<< 16 ||| min g 255 <<< 8) ||| min b 255⟩

/-- The `Surface` struct of the source: width, height, and a flat `Vec<u32>`
buffer, modelled as a `List Nat`. -/
structure Surface where
  width : Nat
  height : Nat
  buffer : List Nat
  deriving DecidableEq

/-- Embedding of `Surface::size` (src/src/lib.rs lines 57-59). -/
def Surface.size (s : Surface) : Nat × Nat :=
  (s.width, s.height)

/-- Rust `usize` subtraction `a - b`: panics on underflow (debug) and in this
program also panics downstream in release mode, so it is modelled as `none`
on underflow. -/
def checkedSub (a b : Nat) : Option Nat :=
  if b ≤ a then some (a - b) else none

/-- Embedding of `Surface::put_pixel` (src/src/lib.rs lines 74-78):
clamp `x` to `min(x, width - 1)`, `y` to `min(y, height - 1)`, then write the
color's packed value at linear index `y_clamp * width + x_clamp`. The
subtraction and the buffer indexing are the two fallible steps. -/
def Surface.put_pixel (s : Surface) (x y : Nat) (color : Color) : Option Surface := do
  let wm1 ← checkedSub s.width 1
  let hm1 ← checkedSub s.height 1
  let x_clamp := min x wm1
  let y_clamp := min y hm1
  let idx := y_clamp * s.width + x_clamp
  if idx < s.buffer.length then
    some { s with buffer := s.buffer.set idx color.val }
  else
    none

/-- Embedding of `Surface::new` (src/src/lib.rs lines 133-140):
`vec![0; width * height]`. -/
def Surface.new (width height : Nat) : Surface :=
  ⟨width, height, List.replicate (width * height) 0⟩

/-- Observable events of one run of the `begin_draw` loop body: a callback
invocation (`draw_frame(self)`) or a present
(`window.update_with_buffer(...)`). -/
inductive Ev where
  | cb : Ev
  | present : Ev
  deriving DecidableEq

/-- Embedding of the `while` loop of `Surface::begin_draw`
(src/src/lib.rs lines 120-125). The external display collaborator (the
`minifb` window) is modelled by a trace: the list of answers
`(is_open, is_key_down(Escape))` it returns at successive evaluations of the
loop condition `window.is_open() && !window.is_key_down(Key::Escape)`.
Presents succeed (the stub's `update_with_buffer` returns `Ok`). Returns the
final surface, the number of callback invocations, and the event sequence.
An exhausted trace stops the loop, which is harmless: every claim supplies a
trace that closes the window. -/
def beginDrawLoop (draw_frame : Surface → Surface) :
    List (Bool × Bool) → Surface → Surface × Nat × List Ev
  | [], s => (s, 0, [])
  | (isOpen, escDown) :: rest, s =>
    if isOpen && !escDown then
      let s' := draw_frame s
      let r := beginDrawLoop draw_frame rest s'
      (r.1, r.2.1 + 1, Ev.cb :: Ev.present :: r.2.2)
    else
      (s, 0, [])

/-- Sequencing of several `put_pixel` calls, for "any number of intervening
put_pixel calls" claims. -/
def applyPuts (s : Surface) : List (Nat × Nat × Color) → Option Surface
  | [] => some s
  | (x, y, c) :: rest => (s.put_pixel x y c).bind (fun s' => applyPuts s' rest)

/-- The Surface invariant of the data model: the buffer has exactly
`width * height` elements and every element is a valid packed color value,
below `2 ^ 24`. -/
def Inv (s : Surface) : Prop :=
  s.buffer.length = s.width * s.height ∧ ∀ v ∈ s.buffer, v < 2 ^ 24

/-! Helper lemmas shared by several claims. -/

/-- Packing three clamped bytes with shifts and bitwise or equals the
arithmetic sum, since the three fields occupy disjoint bit ranges. -/
theorem pack_or_eq_add (a c d : Nat) (hc : c ≤ 255) (hd : d ≤ 255) :
    (a <<< 16 ||| c <<< 8) ||| d = a * 65536 + c * 256 + d := by
  rw [Nat.shiftLeft_eq, Nat.shiftLeft_eq]
  have h1 : a * 2 ^ 16 ||| c * 2 ^ 8 = 2 ^ 16 * a + c * 2 ^ 8 := by
    rw [Nat.mul_comm a (2 ^ 16)]
    refine (Nat.mul_add_lt_is_or ?_ a).symm
    calc c * 2 ^ 8 ≤ 255 * 2 ^ 8 := Nat.mul_le_mul_right _ hc
      _ < 2 ^ 16 := by norm_num
  have h2 : 2 ^ 16 * a + c * 2 ^ 8 = 2 ^ 8 * (2 ^ 8 * a + c) := by ring
  have hd8 : d < 2 ^ 8 := by omega
  rw [h1, h2, ← Nat.mul_add_lt_is_or hd8 (2 ^ 8 * a + c)]
  ring

/-- Closed form of the packed value produced by `Color.rgb`: the first
positional argument lands in bits 16-23, the THIRD (`g`) in bits 8-15, and
the SECOND (`b`) in bits 0-7. -/
theorem Color.rgb_val (r b g : Nat) :
    (Color.rgb r b g).val = min r 255 * 65536 + min g 255 * 256 + min b 255 :=
  pack_or_eq_add _ _ _ (Nat.min_le_right g 255) (Nat.min_le_right b 255)

/-- Clamped linear index is always inside a `w * h` buffer when both
dimensions are positive. -/
theorem idx_lt (w h x y : Nat) (hw : 0 < w) (hh : 0 < h) :
    min y (h - 1) * w + min x (w - 1) < w * h := by
  obtain ⟨w', rfl⟩ : ∃ w', w = w' + 1 := ⟨w - 1, by omega⟩
  obtain ⟨h', rfl⟩ : ∃ h', h = h' + 1 := ⟨h - 1, by omega⟩
  have h1 : min y (h' + 1 - 1) ≤ h' := by omega
  have h2 : min x (w' + 1 - 1) ≤ w' := by omega
  calc min y (h' + 1 - 1) * (w' + 1) + min x (w' + 1 - 1)
      ≤ h' * (w' + 1) + w' := Nat.add_le_add (Nat.mul_le_mul_right _ h1) h2
    _ < h' * (w' + 1) + w' + 1 := Nat.lt_succ_self _
    _ = (w' + 1) * (h' + 1) := by ring

/-- On a surface with positive dimensions and a full-size buffer,
`put_pixel` succeeds and overwrites exactly the clamped index. -/
theorem Surface.put_pixel_pos (s : Surface) (x y : Nat) (c : Color)
    (hw : 0 < s.width) (hh : 0 < s.height)
    (hlen : s.buffer.length = s.width * s.height) :
    s.put_pixel x y c = some { s with
      buffer := s.buffer.set (min y (s.height - 1) * s.width + min x (s.width - 1)) c.val } := by
  have hidx : min y (s.height - 1) * s.width + min x (s.width - 1) < s.buffer.length := by
    rw [hlen]
    exact idx_lt s.width s.height x y hw hh
  unfold Surface.put_pixel checkedSub
  simp only [if_pos (show 1 ≤ s.width from hw), if_pos (show 1 ≤ s.height from hh),
    Option.bind_eq_bind, Option.some_bind, if_pos hidx]

/-- Any successful `put_pixel` call implies both dimensions are positive and
the result is the clamped single-slot overwrite. -/
theorem Surface.put_pixel_some_elim {s s' : Surface} {x y : Nat} {c : Color}
    (hput : s.put_pixel x y c = some s') :
    1 ≤ s.width ∧ 1 ≤ s.height ∧
    s' = { s with
      buffer := s.buffer.set (min y (s.height - 1) * s.width + min x (s.width - 1)) c.val } := by
  unfold Surface.put_pixel checkedSub at hput
  by_cases hw : 1 ≤ s.width
  · by_cases hh : 1 ≤ s.height
    · simp only [if_pos hw, if_pos hh, Option.bind_eq_bind, Option.some_bind] at hput
      by_cases hidx :
          min y (s.height - 1) * s.width + min x (s.width - 1) < s.buffer.length
      · rw [if_pos hidx] at hput
        exact ⟨hw, hh, (Option.some.inj hput).symm⟩
      · rw [if_neg hidx] at hput
        exact absurd hput (by simp)
    · simp [if_neg hh] at hput
  · simp [if_neg hw] at hput

/-- A chain of `put_pixel` calls never changes the dimensions. -/
theorem applyPuts_dims {ops : List (Nat × Nat × Color)} {s s' : Surface}
    (h : applyPuts s ops = some s') : s'.width = s.width ∧ s'.height = s.height := by
  induction ops generalizing s with
  | nil =>
    cases Option.some.inj h
    exact ⟨rfl, rfl⟩
  | cons p rest ih =>
    obtain ⟨x, y, c⟩ := p
    unfold applyPuts at h
    cases hp : s.put_pixel x y c with
    | none =>
      rw [hp] at h
      exact absurd h (by simp)
    | some s1 =>
      rw [hp] at h
      simp only [Option.some_bind] at h
      obtain ⟨h1, h2⟩ := ih h
      obtain ⟨-, -, rfl⟩ := Surface.put_pixel_some_elim hp
      exact ⟨h1, h2⟩

/-! Claim theorems. -/

/-- C1 (counterexample): the claim that `Color::rgb`, called with positional
arguments `(r, g, b)`, packs `min(g,255)` into bits 8-15 and `min(b,255)`
into bits 0-7 fails at the concrete input `(0, 1, 2)`: the source parameter
list is `(r, b, g)`, so the second positional argument `1` lands in bits 0-7
and the third `2` in bits 8-15, giving packed value 513, not 258. -/
theorem C1_rgb_counterexample :
    ¬ ((Color.rgb 0 1 2).val / 65536 % 256 = min 0 255 ∧
       (Color.rgb 0 1 2).val / 256 % 256 = min 1 255 ∧
       (Color.rgb 0 1 2).val % 256 = min 2 255) := by
  decide

/-- C1 (amended): for all positional arguments, `Color::rgb` packs the first
argument's clamp into bits 16-23, the THIRD argument's clamp into bits 8-15
and the SECOND argument's clamp into bits 0-7 (the source parameter order is
`(r, b, g)`); in particular `rgb(300, 10, 500)` produces the same packed
value as `rgb(255, 10, 255)`. -/
theorem C1_rgb_packing (r b g : Nat) :
    (Color.rgb r b g).val / 65536 % 256 = min r 255 ∧
    (Color.rgb r b g).val / 256 % 256 = min g 255 ∧
    (Color.rgb r b g).val % 256 = min b 255 ∧
    Color.rgb 300 10 500 = Color.rgb 255 10 255 := by
  rw [Color.rgb_val]
  refine ⟨?_, ?_, ?_, by decide⟩ <;> omega

/-- C2: on every surface with positive width and height whose buffer has the
constructed length, `put_pixel x y c` succeeds, writes `c`'s packed value at
linear index `min(y,H-1)*W + min(x,W-1)` and leaves every other index
unchanged. -/
theorem C2_put_pixel_effect (s : Surface) (x y : Nat) (c : Color)
    (hw : 0 < s.width) (hh : 0 < s.height)
    (hlen : s.buffer.length = s.width * s.height) :
    ∃ s', s.put_pixel x y c = some s' ∧
      s'.buffer[min y (s.height - 1) * s.width + min x (s.width - 1)]? = some c.val ∧
      ∀ j, j ≠ min y (s.height - 1) * s.width + min x (s.width - 1) →
        s'.buffer[j]? = s.buffer[j]? := by
  refine ⟨_, s.put_pixel_pos x y c hw hh hlen, ?_, ?_⟩
  · exact List.getElem?_set_self (by rw [hlen]; exact idx_lt _ _ _ _ hw hh)
  · intro j hj
    exact List.getElem?_set_ne (Ne.symm hj)

/-- Witness for C2 at a concrete input: a 2 by 2 surface, out-of-range
coordinates (5, 5), clamped to index 3. -/
theorem C2_put_pixel_effect_witness :
    0 < (Surface.new 2 2).width ∧ 0 < (Surface.new 2 2).height ∧
    (Surface.new 2 2).buffer.length = (Surface.new 2 2).width * (Surface.new 2 2).height ∧
    (∃ s', (Surface.new 2 2).put_pixel 5 5 (Color.rgb 7 8 9) = some s' ∧
      s'.buffer[min 5 ((Surface.new 2 2).height - 1) * (Surface.new 2 2).width +
        min 5 ((Surface.new 2 2).width - 1)]? = some (Color.rgb 7 8 9).val ∧
      ∀ j, j ≠ min 5 ((Surface.new 2 2).height - 1) * (Surface.new 2 2).width +
          min 5 ((Surface.new 2 2).width - 1) →
        s'.buffer[j]? = (Surface.new 2 2).buffer[j]?) :=
  ⟨by decide, by decide, by decide,
    C2_put_pixel_effect (Surface.new 2 2) 5 5 (Color.rgb 7 8 9)
      (by decide) (by decide) (by decide)⟩

/-- C3: both clamped coordinates lie strictly inside the surface bounds and
the linear index lies strictly inside the buffer, so `put_pixel` succeeds:
no out-of-bounds access happens for any caller-supplied coordinates. -/
theorem C3_put_pixel_safe (s : Surface) (x y : Nat) (c : Color)
    (hw : 0 < s.width) (hh : 0 < s.height)
    (hlen : s.buffer.length = s.width * s.height) :
    min x (s.width - 1) < s.width ∧ min y (s.height - 1) < s.height ∧
    min y (s.height - 1) * s.width + min x (s.width - 1) < s.buffer.length ∧
    (s.put_pixel x y c).isSome := by
  refine ⟨by omega, by omega, by rw [hlen]; exact idx_lt _ _ _ _ hw hh, ?_⟩
  rw [s.put_pixel_pos x y c hw hh hlen]
  rfl

/-- Witness for C3 at a concrete input: a 3 by 2 surface and far-out-of-range
coordinates. -/
theorem C3_put_pixel_safe_witness :
    0 < (Surface.new 3 2).width ∧ 0 < (Surface.new 3 2).height ∧
    (Surface.new 3 2).buffer.length = (Surface.new 3 2).width * (Surface.new 3 2).height ∧
    (min 100 ((Surface.new 3 2).width - 1) < (Surface.new 3 2).width ∧
     min 200 ((Surface.new 3 2).height - 1) < (Surface.new 3 2).height ∧
     min 200 ((Surface.new 3 2).height - 1) * (Surface.new 3 2).width +
       min 100 ((Surface.new 3 2).width - 1) < (Surface.new 3 2).buffer.length ∧
     ((Surface.new 3 2).put_pixel 100 200 (Color.rgb 1 2 3)).isSome) :=
  ⟨by decide, by decide, by decide,
    C3_put_pixel_safe (Surface.new 3 2) 100 200 (Color.rgb 1 2 3)
      (by decide) (by decide) (by decide)⟩

/-- C7: `Surface::new W H` allocates a buffer of exactly `W * H` elements,
every element the zero (black) packed value. -/
theorem C7_new_spec (W H : Nat) (_hW : 0 < W) (_hH : 0 < H) :
    (Surface.new W H).buffer.length = W * H ∧
    ∀ v ∈ (Surface.new W H).buffer, v = 0 := by
  constructor
  · simp [Surface.new]
  · intro v hv
    exact List.eq_of_mem_replicate hv

/-- Witness for C7 at a concrete input: a 2 by 3 surface. -/
theorem C7_new_spec_witness :
    0 < 2 ∧ 0 < 3 ∧
    ((Surface.new 2 3).buffer.length = 2 * 3 ∧
     ∀ v ∈ (Surface.new 2 3).buffer, v = 0) :=
  ⟨by decide, by decide, C7_new_spec 2 3 (by decide) (by decide)⟩

/-- C10: on a surface constructed with zero width or zero height, every
`put_pixel` call fails (the clamp's `width - 1` or `height - 1` underflows
and the index cannot land in the empty buffer): `put_pixel` is not total on
zero-dimension surfaces. -/
theorem C10_put_pixel_zero_dim (W H x y : Nat) (c : Color) (h : W = 0 ∨ H = 0) :
    (Surface.new W H).put_pixel x y c = none := by
  unfold Surface.put_pixel checkedSub
  rcases h with h | h
  · subst h
    simp [Surface.new]
  · subst h
    rcases Nat.eq_zero_or_pos W with hW | hW
    · subst hW
      simp [Surface.new]
    · simp [Surface.new, if_pos (show 1 ≤ W from hW)]

/-- C4: if the display collaborator reports the window open for exactly N
evaluations of the loop condition and then reports it closed, with the exit
key never pressed, the `begin_draw` loop invokes the callback exactly N
times and then returns. -/
theorem C4_loop_count (f : Surface → Surface) (N : Nat) (s : Surface)
    (rest : List (Bool × Bool)) :
    (beginDrawLoop f (List.replicate N (true, false) ++ (false, false) :: rest) s).2.1 = N := by
  induction N generalizing s with
  | zero => simp [beginDrawLoop]
  | succ n ih => simp [List.replicate_succ, beginDrawLoop, ih]

/-- C5: in every run of the `begin_draw` loop, the event sequence is exactly
one callback followed by one present, repeated once per iteration: every
present is strictly preceded by the callback invocation of its frame, and no
frame is presented without the callback having run first. -/
theorem C5_loop_ordering (f : Surface → Surface) (tr : List (Bool × Bool)) (s : Surface) :
    (beginDrawLoop f tr s).2.2 =
      List.flatten (List.replicate (beginDrawLoop f tr s).2.1 [Ev.cb, Ev.present]) := by
  induction tr generalizing s with
  | nil => simp [beginDrawLoop]
  | cons p rest ih =>
    obtain ⟨isOpen, escDown⟩ := p
    by_cases hc : isOpen && !escDown
    · simp [beginDrawLoop, hc, ih, List.replicate_succ]
    · simp [beginDrawLoop, hc]

/-- C6: on a surface with positive dimensions, writing the same pixel twice
keeps only the last color, and writing the same color twice equals a single
write. -/
theorem C6_put_pixel_overwrite (s : Surface) (x y : Nat) (c1 c2 : Color)
    (hw : 0 < s.width) (hh : 0 < s.height)
    (hlen : s.buffer.length = s.width * s.height) :
    (s.put_pixel x y c1).bind (fun s1 => s1.put_pixel x y c2) = s.put_pixel x y c2 ∧
    (s.put_pixel x y c1).bind (fun s1 => s1.put_pixel x y c1) = s.put_pixel x y c1 := by
  have key : ∀ c c' : Color,
      (s.put_pixel x y c).bind (fun s1 => s1.put_pixel x y c') = s.put_pixel x y c' := by
    intro c c'
    simp only [s.put_pixel_pos x y c hw hh hlen, Option.bind_eq_bind, Option.some_bind]
    rw [Surface.put_pixel_pos
      { s with buffer := s.buffer.set (min y (s.height - 1) * s.width + min x (s.width - 1)) c.val }
      x y c' hw hh (by simpa using hlen)]
    rw [s.put_pixel_pos x y c' hw hh hlen]
    simp [List.set_set]
  exact ⟨key c1 c2, key c1 c1⟩

/-- Witness for C6 at a concrete input: a 2 by 2 surface, pixel (0, 1), two
distinct colors. -/
theorem C6_put_pixel_overwrite_witness :
    0 < (Surface.new 2 2).width ∧ 0 < (Surface.new 2 2).height ∧
    (Surface.new 2 2).buffer.length = (Surface.new 2 2).width * (Surface.new 2 2).height ∧
    (((Surface.new 2 2).put_pixel 0 1 (Color.rgb 1 2 3)).bind
        (fun s1 => s1.put_pixel 0 1 (Color.rgb 4 5 6)) =
      (Surface.new 2 2).put_pixel 0 1 (Color.rgb 4 5 6) ∧
     ((Surface.new 2 2).put_pixel 0 1 (Color.rgb 1 2 3)).bind
        (fun s1 => s1.put_pixel 0 1 (Color.rgb 1 2 3)) =
      (Surface.new 2 2).put_pixel 0 1 (Color.rgb 1 2 3)) :=
  ⟨by decide, by decide, by decide,
    C6_put_pixel_overwrite (Surface.new 2 2) 0 1 (Color.rgb 1 2 3) (Color.rgb 4 5 6)
      (by decide) (by decide) (by decide)⟩

/-- C8: the Surface invariant (buffer length equals width times height and
every element is a valid packed color below `2 ^ 24`) holds at construction
and is preserved by every successful `put_pixel` of an `rgb`-built color. -/
theorem C8_invariant (W H : Nat) (s s' : Surface) (x y r b g : Nat)
    (hinv : Inv s) (hput : s.put_pixel x y (Color.rgb r b g) = some s') :
    Inv (Surface.new W H) ∧ Inv s' := by
  constructor
  · constructor
    · simp [Surface.new]
    · intro v hv
      have := List.eq_of_mem_replicate hv
      subst this
      norm_num
  · obtain ⟨hlen, hmem⟩ := hinv
    obtain ⟨-, -, rfl⟩ := Surface.put_pixel_some_elim hput
    constructor
    · simpa using hlen
    · intro v hv
      rcases List.mem_or_eq_of_mem_set hv with hv' | rfl
      · exact hmem v hv'
      · rw [Color.rgb_val]
        have h1 := Nat.min_le_right r 255
        have h2 := Nat.min_le_right g 255
        have h3 := Nat.min_le_right b 255
        norm_num
        omega

/-- Witness for C8 at a concrete input: a 1 by 1 surface with one write. -/
theorem C8_invariant_witness :
    Inv (Surface.new 1 1) ∧
    (Surface.new 1 1).put_pixel 0 0 (Color.rgb 1 2 3) =
      some ⟨1, 1, [(Color.rgb 1 2 3).val]⟩ ∧
    (Inv (Surface.new 2 3) ∧ Inv (⟨1, 1, [(Color.rgb 1 2 3).val]⟩ : Surface)) :=
  ⟨⟨by decide, by decide⟩, by decide,
    C8_invariant 2 3 (Surface.new 1 1) ⟨1, 1, [(Color.rgb 1 2 3).val]⟩ 0 0 1 2 3
      ⟨by decide, by decide⟩ (by decide)⟩

/-- C9: `size()` returns exactly the (width, height) pair given at
construction, and any number of intervening `put_pixel` calls leaves it
unchanged. -/
theorem C9_size_stable (W H : Nat) (ops : List (Nat × Nat × Color)) (s' : Surface)
    (happly : applyPuts (Surface.new W H) ops = some s') :
    (Surface.new W H).size = (W, H) ∧ s'.size = (W, H) := by
  refine ⟨rfl, ?_⟩
  obtain ⟨h1, h2⟩ := applyPuts_dims happly
  unfold Surface.size
  rw [h1, h2]
  rfl

/-- Witness for C9 at a concrete input: a 2 by 3 surface with two writes,
one of them out of range. -/
theorem C9_size_stable_witness :
    applyPuts (Surface.new 2 3) [(0, 0, Color.rgb 9 9 9), (5, 7, Color.rgb 1 2 3)] =
      some ⟨2, 3, [(Color.rgb 9 9 9).val, 0, 0, 0, 0, (Color.rgb 1 2 3).val]⟩ ∧
    ((Surface.new 2 3).size = (2, 3) ∧
     (⟨2, 3, [(Color.rgb 9 9 9).val, 0, 0, 0, 0, (Color.rgb 1 2 3).val]⟩ : Surface).size = (2, 3)) :=
  ⟨by decide,
    C9_size_stable 2 3 [(0, 0, Color.rgb 9 9 9), (5, 7, Color.rgb 1 2 3)]
      ⟨2, 3, [(Color.rgb 9 9 9).val, 0, 0, 0, 0, (Color.rgb 1 2 3).val]⟩ (by decide)⟩

/-- Witness for C10 at a concrete input: zero width, height 5. -/
theorem C10_put_pixel_zero_dim_witness :
    ((0 : Nat) = 0 ∨ (5 : Nat) = 0) ∧
    (Surface.new 0 5).put_pixel 3 4 (Color.rgb 1 2 3) = none :=
  ⟨Or.inl rfl, C10_put_pixel_zero_dim 0 5 3 4 (Color.rgb 1 2 3) (Or.inl rfl)⟩

end Fbdraw
